import Mathlib

/-!
Verification of the memory-lifecycle / forgetting engine of LongMemory
(`src/component/forgot.py`), as a shallow embedding.

Modelling conventions:
* SQLite rows of the `memory_scores` table become `MemoryRecord`; the store is
  the list of rows, with the PRIMARY KEY constraint expressed as `StoreWF`.
* Python floats become exact reals (`ℝ`); values stored in the database and
  read back are represented as rationals (`ℚ`) coerced into `ℝ` where the code
  does float arithmetic.
* Timestamps are POSIX seconds (`ℤ`).  `datetime.fromisoformat` is modelled by
  `parseTimestamp`, a parser that either yields the instant as an integer or
  fails (the Python call raises `ValueError` on malformed input; fallible code
  is modelled with `Except`/`Option`).  `timedelta.days` floors towards
  negative infinity, which `Int.fdiv` by 86400 reproduces.
* Python's `str.split('. ')` is re-implemented character-by-character
  (`splitSepDotSpace`), because it must be executable inside the kernel; it
  scans non-overlapping occurrences of the separator left to right, exactly
  like CPython.
* `datetime.now()` is a parameter `now`; the configured
  `forgetting_threshold` (read through `config_manager`, fallback 0.2) is a
  parameter `threshold`.
-/

namespace LongMemory

open Classical

/-- Forgetting stage definitions (`ForgettingStage` enum in `forgot.py`). -/
inductive ForgettingStage where
  | intact
  | compressed
  | archived
  | forgotten
deriving DecidableEq, Repr

/-- Position of a stage along the one-way chain
intact → compressed → archived → forgotten. -/
def stageRank : ForgettingStage → ℕ
  | .intact => 0
  | .compressed => 1
  | .archived => 2
  | .forgotten => 3

/-- One row of the `memory_scores` table (schema in `_init_database`).
`content` is selected by `execute_forgetting` even though the
`CREATE TABLE` statement omits it; the rest of the code base
(e.g. `getPicture.py`) also reads `content` from this table, so the record is
modelled with the column present. -/
structure MemoryRecord where
  memory_id : String
  user_id : String
  content : String
  content_hash : Option String
  base_score : ℚ
  recency_boost : ℚ
  emotional_weight : ℚ
  access_count : ℕ
  last_accessed : Option ℤ
  created_at : String
  compression_ratio : ℚ
  forgetting_stage : ForgettingStage
  compressed_content : Option String
  semantic_tags : Option String
deriving DecidableEq

/-- The lifecycle store: the rows of `memory_scores`. -/
abbrev Store := List MemoryRecord

/-- The PRIMARY KEY constraint on `memory_id`. -/
def StoreWF (s : Store) : Prop := (s.map (·.memory_id)).Nodup

/-- The Python dict handed to `calculate_memory_score`: a key/value map in
which every key except `memory_id` and `created_at` may be absent (the code
reads them with `dict.get` and a default). -/
structure MemoryData where
  memory_id : String
  created_at : String
  importance_score : Option ℚ
  emotional_score : Option ℚ
  access_count : Option ℕ
  compression_ratio : Option ℚ

/-- Result of `calculate_memory_score` (the `MemoryScore` dataclass). -/
structure MemoryScore where
  memory_id : String
  base_score : ℚ
  recency_boost : ℝ
  emotional_weight : ℚ
  access_frequency : ℕ
  compression_ratio : ℚ
  final_score : ℝ

/-- Digit-string to number; helper for `parseTimestamp`. -/
def parseDigits (cs : List Char) : Option ℕ :=
  match cs with
  | [] => none
  | _ => cs.foldlM (fun acc c => if c.isDigit then some (acc * 10 + (c.toNat - 48)) else none) 0

/-- Models `datetime.fromisoformat(s)` reduced to the instant it denotes, in
POSIX seconds: a well-formed timestamp string parses to an integer, anything
malformed makes the Python call raise `ValueError`, i.e. yields `none`. -/
def parseTimestamp (s : String) : Option ℤ :=
  match s.toList with
  | '-' :: rest => (parseDigits rest).map (fun n => -(n : ℤ))
  | cs => (parseDigits cs).map (fun n => (n : ℤ))

/-- Seconds per day; `timedelta.days` is the floored quotient by this. -/
def SECONDS_PER_DAY : ℤ := 86400

/-- `AdvancedForgettingSystem.calculate_memory_score`.  Parses `created_at`
(raising, i.e. `.error`, on malformed input), takes the whole-day age
`(now - created_at).days`, and combines the four weighted terms.  Note that
the code reads the keys `importance_score` and `emotional_score` from the
dict, with defaults 0.5 and 0.0. -/
noncomputable def calculate_memory_score (now : ℤ) (memory_data : MemoryData) :
    Except String MemoryScore :=
  match parseTimestamp memory_data.created_at with
  | none => .error "Invalid isoformat string"
  | some created_at =>
    let age_days : ℤ := (now - created_at).fdiv SECONDS_PER_DAY
    let recency_boost : ℝ := Real.exp (-(age_days : ℝ) / 30)
    let emotional_weight : ℚ := memory_data.emotional_score.getD 0
    let access_freq : ℕ := memory_data.access_count.getD 0
    let frequency_boost : ℚ := min ((access_freq : ℚ) * 0.1) 0.5
    let base_score : ℚ := memory_data.importance_score.getD 0.5
    let final_score : ℝ :=
      (base_score : ℝ) * 0.4 + recency_boost * 0.3 +
      (emotional_weight : ℝ) * 0.2 + (frequency_boost : ℝ) * 0.1
    .ok ⟨memory_data.memory_id, base_score, recency_boost, emotional_weight,
         access_freq, memory_data.compression_ratio.getD 1, final_score⟩

/-- The dict built from a fetched row in `should_forget`
(`dict(zip(columns, row))`).  Its keys are the column names, so the keys
`importance_score` and `emotional_score` looked up by
`calculate_memory_score` are absent (the columns are called `base_score` and
`emotional_weight`), and the scorer always falls back to the defaults 0.5
and 0.0 for rows coming from the database. -/
def rowToMemoryData (r : MemoryRecord) : MemoryData :=
  ⟨r.memory_id, r.created_at, none, none, some r.access_count, some r.compression_ratio⟩

/-- First row of the store with the given `memory_id`
(`SELECT ... WHERE memory_id = ?`). -/
def findRow (s : Store) (memory_id : String) : Option MemoryRecord :=
  s.find? (fun r => decide (r.memory_id = memory_id))

/-- The `reason` strings produced by `should_forget`, as symbolic values
(formatting a float into `"Low score: {score:.2f} < {threshold}"` is kept
abstract as the constructor's arguments). -/
inductive Reason where
  | lowScore (score threshold : ℝ)
  | readyForCompression
  | readyForArchival
  | memoryRetained
  | memoryNotFound

/-- `AdvancedForgettingSystem.should_forget`: fetch the row, score it, and
run the decision ladder.  `threshold` is the configured
`forgetting_threshold` (fallback 0.2). -/
noncomputable def should_forget (s : Store) (now : ℤ) (threshold : ℝ)
    (memory_id : String) : Except String (Bool × Reason) :=
  match findRow s memory_id with
  | none => .ok (false, .memoryNotFound)
  | some row =>
    match calculate_memory_score now (rowToMemoryData row) with
    | .error e => .error e
    | .ok score =>
      if score.final_score < threshold then
        .ok (true, .lowScore score.final_score threshold)
      else if row.forgetting_stage = .intact ∧ score.compression_ratio > 0.8 then
        .ok (false, .readyForCompression)
      else if row.forgetting_stage = .compressed ∧ score.final_score < 0.5 then
        .ok (false, .readyForArchival)
      else
        .ok (false, .memoryRetained)

/-- `AdvancedForgettingSystem.should_compress`: re-fetch the row's
`compression_ratio`; the Python guard `if row and row[0]` treats a zero (or
missing) ratio as falsy, so those fall through to `return True`. -/
def should_compress (s : Store) (memory_id : String) : Bool :=
  match findRow s memory_id with
  | none => true
  | some row =>
    if row.compression_ratio ≠ 0 then decide (row.compression_ratio > 0.7) else true

/-- CPython `content.split('. ')` on the character list: scan
non-overlapping occurrences of the two-character separator left to right. -/
def splitSepDotSpace : List Char → List (List Char)
  | [] => [[]]
  | '.' :: ' ' :: rest => [] :: splitSepDotSpace rest
  | c :: rest =>
    match splitSepDotSpace rest with
    | [] => [[c]]
    | shd :: stl => (c :: shd) :: stl

/-- `content.split('. ')` as a list of sentence strings. -/
def pySplitDot (content : String) : List String :=
  (splitSepDotSpace content.toList).map (fun l => String.mk l)

/-- Python `max(sentences, key=len)` over a non-empty list: keep the current
maximum and replace it only on a strictly greater length, so ties go to the
first occurrence.  (Python raises on an empty list; the code only evaluates
it under a guard that makes the list non-empty, and the `""` default mirrors
the `else ""` arm of the same statement.) -/
def pyMaxByLen : List String → String
  | [] => ""
  | x :: xs => xs.foldl (fun acc sentence => if sentence.length > acc.length then sentence else acc) x

/-- `AdvancedForgettingSystem.compress_memory`: split into sentences on
`'. '`; 3 or fewer sentences are returned unchanged; otherwise keep the
first and last sentences, insert the longest interior sentence between them
when it is non-empty (`if longest:` drops an empty string), join with
`'. '` and prefix the compression marker. -/
def compress_memory (_memory_id content : String) : String :=
  let sentences := pySplitDot content
  if sentences.length ≤ 3 then content
  else
    let longest :=
      if sentences.length > 2 then pyMaxByLen (sentences.drop 1).dropLast else ""
    let key_sentences :=
      if longest = "" then [sentences.headI, sentences.getLastD ""]
      else [sentences.headI, longest, sentences.getLastD ""]
    let compressed := String.intercalate ". " key_sentences
    "[COMPRESSED] " ++ compressed

/-- The `actions` dict returned by `execute_forgetting`. -/
structure Actions where
  compressed : List String
  archived : List String
  forgotten : List String
  retained : List String
deriving DecidableEq

/-- One row of the append-only `forgetting_log` table. -/
structure LogEntry where
  memory_id : String
  old_stage : ForgettingStage
  new_stage : ForgettingStage
  reason : Reason

/-- In-flight state of one batch pass: the table contents (uncommitted
updates included), the log rows inserted so far, and the actions dict. -/
structure PassState where
  store : Store
  log : List LogEntry
  actions : Actions

/-- Effect on one row of the `UPDATE memory_scores SET forgetting_stage = ?,
compressed_content = ?, last_accessed = ? WHERE memory_id = ?` statement. -/
def setRow (r : MemoryRecord) (new_stage : ForgettingStage)
    (compressed_content : Option String) (now : ℤ) : MemoryRecord :=
  ⟨r.memory_id, r.user_id, r.content, r.content_hash, r.base_score,
   r.recency_boost, r.emotional_weight, r.access_count, some now,
   r.created_at, r.compression_ratio, new_stage, compressed_content,
   r.semantic_tags⟩

/-- The `UPDATE ... WHERE memory_id = ?` statement on the whole table. -/
def updateStage (s : Store) (memory_id : String) (new_stage : ForgettingStage)
    (compressed_content : Option String) (now : ℤ) : Store :=
  s.map (fun r => if r.memory_id = memory_id then setRow r new_stage compressed_content now else r)

/-- Loop body of `execute_forgetting` for one `memory_id`.  All reads go
against `s₀`, the state of the table at the start of the pass: both helper
queries run on fresh connections that only see committed data, and the
in-loop `SELECT` reads a row this pass has not updated yet.  Writes
accumulate in `st` and are committed at the end of the pass. -/
noncomputable def processOne (s₀ : Store) (now : ℤ) (threshold : ℝ) (dry_run : Bool)
    (st : PassState) (memory_id : String) : Except String PassState :=
  match should_forget s₀ now threshold memory_id with
  | .error e => .error e
  | .ok (sf, reason) =>
    match findRow s₀ memory_id with
    | none => .error "TypeError: cannot unpack non-sequence NoneType"
    | some row =>
      if dry_run then
        if sf then
          .ok ⟨st.store, st.log,
               ⟨st.actions.compressed, st.actions.archived,
                st.actions.forgotten ++ [memory_id], st.actions.retained⟩⟩
        else
          .ok ⟨st.store, st.log,
               ⟨st.actions.compressed, st.actions.archived,
                st.actions.forgotten, st.actions.retained ++ [memory_id]⟩⟩
      else
        let r :=
          if row.forgetting_stage = .intact ∧ should_compress s₀ memory_id then
            (ForgettingStage.compressed, some (compress_memory memory_id row.content),
             ⟨st.actions.compressed ++ [memory_id], st.actions.archived,
              st.actions.forgotten, st.actions.retained⟩)
          else if row.forgetting_stage = .compressed ∧ sf then
            (ForgettingStage.archived, none,
             ⟨st.actions.compressed, st.actions.archived ++ [memory_id],
              st.actions.forgotten, st.actions.retained⟩)
          else if row.forgetting_stage = .archived ∧ sf then
            (ForgettingStage.forgotten, none,
             ⟨st.actions.compressed, st.actions.archived,
              st.actions.forgotten ++ [memory_id], st.actions.retained⟩)
          else
            (row.forgetting_stage, none,
             (⟨st.actions.compressed, st.actions.archived,
               st.actions.forgotten, st.actions.retained ++ [memory_id]⟩ : Actions))
        .ok ⟨updateStage st.store memory_id r.1 r.2.1 now,
             st.log ++ [⟨memory_id, row.forgetting_stage, r.1, reason⟩],
             r.2.2⟩

/-- Rows matched by `SELECT memory_id FROM memory_scores WHERE user_id = ?
AND forgetting_stage != 'forgotten' ORDER BY created_at ASC`. -/
def activeRecords (s : Store) (user_id : String) : List MemoryRecord :=
  List.insertionSort (fun a b => a.created_at ≤ b.created_at)
    (s.filter (fun r => decide (r.user_id = user_id ∧ r.forgetting_stage ≠ .forgotten)))

/-- The id list the pass iterates over. -/
def activeMemoryIds (s : Store) (user_id : String) : List String :=
  (activeRecords s user_id).map (·.memory_id)

/-- `AdvancedForgettingSystem.execute_forgetting`: one batch pass for one
user.  Returns the actions dict together with the committed table state and
the log rows inserted by this pass; an uncaught per-memory exception (there
is no `try` in the loop) aborts the pass, the transaction is never
committed, and nothing is returned. -/
noncomputable def execute_forgetting (s : Store) (user_id : String) (dry_run : Bool)
    (now : ℤ) (threshold : ℝ) : Except String (Actions × Store × List LogEntry) :=
  ((activeMemoryIds s user_id).foldlM (processOne s now threshold dry_run)
      ⟨s, [], ⟨[], [], [], []⟩⟩).map
    (fun st => (st.actions, st.store, st.log))

/-- Fallback value of the configured `forgetting_threshold`
(`get_memory_config` in `config_manager.py`). -/
noncomputable def default_forgetting_threshold : ℝ := 0.2

/-- Parameters of one invocation of `execute_forgetting`. -/
structure PassParams where
  user_id : String
  dry_run : Bool
  now : ℤ
  threshold : ℝ

/-- A sequence of forgetting passes, each running on the table state the
previous one committed. -/
noncomputable def runPasses (ps : List PassParams) (s : Store) : Except String Store :=
  ps.foldlM (fun st p => (execute_forgetting st p.user_id p.dry_run p.now p.threshold).map
    (fun x => x.2.1)) s

/-! ### Derived per-row decision functions

The following definitions restate, row by row, what the pass computes; the
lemmas below prove that `execute_forgetting` equals the composition of
these pieces.  They are specification-side conveniences, not part of the
embedding. -/

/-- Membership condition of the active list. -/
def activeProp (user_id : String) (r : MemoryRecord) : Prop :=
  r.user_id = user_id ∧ r.forgetting_stage ≠ .forgotten

/-- Whole-day age the scorer computes for a row (meaningful when
`created_at` parses). -/
def ageDaysOf (now : ℤ) (r : MemoryRecord) : ℤ :=
  (now - (parseTimestamp r.created_at).getD 0).fdiv SECONDS_PER_DAY

/-- Score of a database row: because `rowToMemoryData` lacks the
`importance_score` and `emotional_score` keys, the base is always 0.5 and
the emotional term always 0. -/
noncomputable def scoreOfRow (now : ℤ) (r : MemoryRecord) : MemoryScore :=
  ⟨r.memory_id, 0.5, Real.exp (-(ageDaysOf now r : ℝ) / 30), 0, r.access_count,
   r.compression_ratio,
   ((0.5 : ℚ) : ℝ) * 0.4 + Real.exp (-(ageDaysOf now r : ℝ) / 30) * 0.3 +
     ((0 : ℚ) : ℝ) * 0.2 + ((min ((r.access_count : ℚ) * 0.1) 0.5 : ℚ) : ℝ) * 0.1⟩

/-- The forgetting decision for a row: score strictly below the threshold. -/
def sfProp (now : ℤ) (threshold : ℝ) (r : MemoryRecord) : Prop :=
  (scoreOfRow now r).final_score < threshold

/-- The boolean `should_forget` returns for a row. -/
noncomputable def sfB (now : ℤ) (threshold : ℝ) (r : MemoryRecord) : Bool :=
  if sfProp now threshold r then true else false

/-- The reason `should_forget` returns for a row. -/
noncomputable def reasonOf (now : ℤ) (threshold : ℝ) (r : MemoryRecord) : Reason :=
  if sfProp now threshold r then .lowScore (scoreOfRow now r).final_score threshold
  else if r.forgetting_stage = .intact ∧ r.compression_ratio > 0.8 then .readyForCompression
  else if r.forgetting_stage = .compressed ∧ (scoreOfRow now r).final_score < 0.5 then
    .readyForArchival
  else .memoryRetained

/-- Case of the real-run cascade that puts a row in the `compressed` bucket. -/
def compressedCase (s₀ : Store) (r : MemoryRecord) : Prop :=
  r.forgetting_stage = .intact ∧ should_compress s₀ r.memory_id = true

/-- Case of the real-run cascade that puts a row in the `archived` bucket. -/
def archivedCase (now : ℤ) (threshold : ℝ) (r : MemoryRecord) : Prop :=
  r.forgetting_stage = .compressed ∧ sfProp now threshold r

/-- Case of the real-run cascade that puts a row in the `forgotten` bucket. -/
def forgottenCase (now : ℤ) (threshold : ℝ) (r : MemoryRecord) : Prop :=
  r.forgetting_stage = .archived ∧ sfProp now threshold r

/-- Case of the real-run cascade that leaves a row in the `retained` bucket. -/
def retainedCase (s₀ : Store) (now : ℤ) (threshold : ℝ) (r : MemoryRecord) : Prop :=
  ¬ compressedCase s₀ r ∧ ¬ archivedCase now threshold r ∧ ¬ forgottenCase now threshold r

/-- New stage a non-dry pass assigns to a row. -/
noncomputable def nsOf (s₀ : Store) (now : ℤ) (threshold : ℝ) (r : MemoryRecord) :
    ForgettingStage :=
  if compressedCase s₀ r then .compressed
  else if archivedCase now threshold r then .archived
  else if forgottenCase now threshold r then .forgotten
  else r.forgetting_stage

/-- Compressed content a non-dry pass writes back for a row. -/
def ccOf (s₀ : Store) (r : MemoryRecord) : Option String :=
  if r.forgetting_stage = .intact ∧ should_compress s₀ r.memory_id = true then
    some (compress_memory r.memory_id r.content)
  else none

/-- Log row a non-dry pass appends for a processed row. -/
noncomputable def logOf (s₀ : Store) (now : ℤ) (threshold : ℝ) (r : MemoryRecord) : LogEntry :=
  ⟨r.memory_id, r.forgetting_stage, nsOf s₀ now threshold r, reasonOf now threshold r⟩

/-- Bucket update of a non-dry pass for one processed row. -/
noncomputable def addCase (s₀ : Store) (now : ℤ) (threshold : ℝ) (a : Actions)
    (r : MemoryRecord) : Actions :=
  if compressedCase s₀ r then
    ⟨a.compressed ++ [r.memory_id], a.archived, a.forgotten, a.retained⟩
  else if archivedCase now threshold r then
    ⟨a.compressed, a.archived ++ [r.memory_id], a.forgotten, a.retained⟩
  else if forgottenCase now threshold r then
    ⟨a.compressed, a.archived, a.forgotten ++ [r.memory_id], a.retained⟩
  else
    ⟨a.compressed, a.archived, a.forgotten, a.retained ++ [r.memory_id]⟩

/-- Bucket update of a dry pass for one processed row. -/
noncomputable def dryAddCase (now : ℤ) (threshold : ℝ) (a : Actions) (r : MemoryRecord) :
    Actions :=
  if sfProp now threshold r then
    ⟨a.compressed, a.archived, a.forgotten ++ [r.memory_id], a.retained⟩
  else
    ⟨a.compressed, a.archived, a.forgotten, a.retained ++ [r.memory_id]⟩

/-! ### Evaluation lemmas for one loop iteration -/

/-! ### Concrete fixtures used to instantiate the theorems -/

/-- A record already in the terminal `forgotten` stage. -/
def recForgotten : MemoryRecord :=
  ⟨"m1", "u", "some content", none, 1/2, 1, 0, 0, none, "0", 1, .forgotten, none, none⟩

/-- An intact record whose ratio is strictly between 0 and the 0.7
compression-readiness threshold. -/
def recIntactLowRatio : MemoryRecord :=
  ⟨"m1", "u", "some content", none, 1/2, 1, 0, 0, none, "0", 1/2, .intact, none, none⟩

/-- An intact record with `compression_ratio = 0`, which Python's truthiness
test conflates with a missing ratio. -/
def recRatioZero : MemoryRecord :=
  ⟨"m1", "u", "some content", none, 1/2, 1, 0, 0, none, "0", 0, .intact, none, none⟩

/-- An intact, compression-ready record. -/
def recIntactReady : MemoryRecord :=
  ⟨"m1", "u", "hello", none, 1/2, 1, 0, 0, none, "0", 1, .intact, none, none⟩

/-- A compressed-stage record still carrying its stored compressed content. -/
def recCompressed : MemoryRecord :=
  ⟨"m1", "u", "some content", none, 1/2, 1, 0, 0, none, "0", 1/2, .compressed,
   some "old summary", none⟩

/-- An archived-stage record. -/
def recArchived : MemoryRecord :=
  ⟨"m1", "u", "some content", none, 1/2, 1, 0, 0, none, "0", 1/2, .archived, none, none⟩

/-- A record whose `created_at` does not parse. -/
def recBadTimestamp : MemoryRecord :=
  ⟨"m1", "u", "some content", none, 1/2, 1, 0, 0, none, "garbage", 1, .intact, none, none⟩

/-- The spec scenario record: created 60 days before `now = 0`, base 0.5,
emotional 0, never accessed. -/
def mdSixtyDays : MemoryData := ⟨"m1", "-5184000", some (1/2), some 0, some 0, some 1⟩

/-- Memory data whose `created_at` lies 30 days in the future of `now = 0`
(clock skew). -/
def mdFuture : MemoryData := ⟨"m1", "2592000", none, none, none, none⟩

@[simp]
lemma setRow_memory_id (r : MemoryRecord) (ns : ForgettingStage) (cc : Option String)
    (now : ℤ) : (setRow r ns cc now).memory_id = r.memory_id := rfl

@[simp]
lemma setRow_user_id (r : MemoryRecord) (ns : ForgettingStage) (cc : Option String)
    (now : ℤ) : (setRow r ns cc now).user_id = r.user_id := rfl

@[simp]
lemma setRow_created_at (r : MemoryRecord) (ns : ForgettingStage) (cc : Option String)
    (now : ℤ) : (setRow r ns cc now).created_at = r.created_at := rfl

@[simp]
lemma setRow_forgetting_stage (r : MemoryRecord) (ns : ForgettingStage) (cc : Option String)
    (now : ℤ) : (setRow r ns cc now).forgetting_stage = ns := rfl

@[simp]
lemma setRow_compressed_content (r : MemoryRecord) (ns : ForgettingStage) (cc : Option String)
    (now : ℤ) : (setRow r ns cc now).compressed_content = cc := rfl

lemma calculate_row_eq (now : ℤ) (r : MemoryRecord) (t : ℤ)
    (hp : parseTimestamp r.created_at = some t) :
    calculate_memory_score now (rowToMemoryData r) = .ok (scoreOfRow now r) := by
  unfold calculate_memory_score scoreOfRow rowToMemoryData ageDaysOf
  simp only [hp, Option.getD_some, Option.getD_none]

lemma should_forget_row (s : Store) (now : ℤ) (threshold : ℝ) (r : MemoryRecord) (t : ℤ)
    (hf : findRow s r.memory_id = some r)
    (hp : parseTimestamp r.created_at = some t) :
    should_forget s now threshold r.memory_id =
      .ok (sfB now threshold r, reasonOf now threshold r) := by
  simp only [should_forget, hf, calculate_row_eq now r t hp, sfB, reasonOf, sfProp]
  have hratio : (scoreOfRow now r).compression_ratio = r.compression_ratio := rfl
  rw [hratio]
  by_cases h1 : (scoreOfRow now r).final_score < threshold
  · simp only [if_pos h1]
  · simp only [if_neg h1]
    by_cases h2 : r.forgetting_stage = .intact ∧ r.compression_ratio > 0.8
    · simp only [if_pos h2]
    · simp only [if_neg h2]
      by_cases h3 : r.forgetting_stage = .compressed ∧ (scoreOfRow now r).final_score < 0.5
      · simp only [if_pos h3]
      · simp only [if_neg h3]

lemma sfB_eq_true (now : ℤ) (threshold : ℝ) (r : MemoryRecord) :
    (sfB now threshold r = true) ↔ sfProp now threshold r := by
  unfold sfB
  by_cases h : sfProp now threshold r
  · simp [h]
  · simp [h]

lemma processOne_real (s₀ : Store) (now : ℤ) (threshold : ℝ) (st : PassState)
    (r : MemoryRecord) (t : ℤ)
    (hf : findRow s₀ r.memory_id = some r)
    (hp : parseTimestamp r.created_at = some t) :
    processOne s₀ now threshold false st r.memory_id =
      .ok ⟨updateStage st.store r.memory_id (nsOf s₀ now threshold r) (ccOf s₀ r) now,
           st.log ++ [logOf s₀ now threshold r],
           addCase s₀ now threshold st.actions r⟩ := by
  simp only [processOne, should_forget_row s₀ now threshold r t hf hp, hf,
    Bool.false_eq_true, if_false, sfB_eq_true, nsOf, ccOf, logOf, addCase]
  by_cases h1 : compressedCase s₀ r
  · have h1' : r.forgetting_stage = .intact ∧ should_compress s₀ r.memory_id = true := h1
    simp only [if_pos h1, if_pos h1']
  · have h1' : ¬(r.forgetting_stage = .intact ∧ should_compress s₀ r.memory_id = true) := h1
    simp only [if_neg h1, if_neg h1']
    by_cases h2 : archivedCase now threshold r
    · have h2' : r.forgetting_stage = .compressed ∧ sfProp now threshold r := h2
      simp only [if_pos h2, if_pos h2']
    · have h2' : ¬(r.forgetting_stage = .compressed ∧ sfProp now threshold r) := h2
      simp only [if_neg h2, if_neg h2']
      by_cases h3 : forgottenCase now threshold r
      · have h3' : r.forgetting_stage = .archived ∧ sfProp now threshold r := h3
        simp only [if_pos h3, if_pos h3']
      · have h3' : ¬(r.forgetting_stage = .archived ∧ sfProp now threshold r) := h3
        simp only [if_neg h3, if_neg h3']

lemma processOne_dry (s₀ : Store) (now : ℤ) (threshold : ℝ) (st : PassState)
    (r : MemoryRecord) (t : ℤ)
    (hf : findRow s₀ r.memory_id = some r)
    (hp : parseTimestamp r.created_at = some t) :
    processOne s₀ now threshold true st r.memory_id =
      .ok ⟨st.store, st.log, dryAddCase now threshold st.actions r⟩ := by
  simp only [processOne, should_forget_row s₀ now threshold r t hf hp, hf, if_true,
    sfB_eq_true, dryAddCase]
  by_cases h : sfProp now threshold r
  · simp only [if_pos h]
  · simp only [if_neg h]

lemma processOne_error (s₀ : Store) (now : ℤ) (threshold : ℝ) (dry_run : Bool)
    (st : PassState) (r : MemoryRecord)
    (hf : findRow s₀ r.memory_id = some r)
    (hp : parseTimestamp r.created_at = none) :
    processOne s₀ now threshold dry_run st r.memory_id =
      .error "Invalid isoformat string" := by
  simp only [processOne, should_forget, hf, calculate_memory_score, rowToMemoryData, hp]

/-! ### The pass as a fold over the active list -/

lemma bind_ok {α β : Type} (x : α) (f : α → Except String β) :
    (Except.ok x >>= f) = f x := rfl

lemma foldlM_processOne_real (s₀ : Store) (now : ℤ) (threshold : ℝ)
    (L : List MemoryRecord) :
    ∀ st : PassState,
    (∀ r ∈ L, findRow s₀ r.memory_id = some r) →
    (∀ r ∈ L, (parseTimestamp r.created_at).isSome) →
    (L.map (·.memory_id)).foldlM (processOne s₀ now threshold false) st =
      .ok ⟨L.foldl (fun acc r =>
              updateStage acc r.memory_id (nsOf s₀ now threshold r) (ccOf s₀ r) now) st.store,
           st.log ++ L.map (logOf s₀ now threshold),
           L.foldl (addCase s₀ now threshold) st.actions⟩ := by
  induction L with
  | nil =>
    intro st _ _
    simp only [List.map_nil, List.foldlM_nil, List.append_nil, List.foldl_nil]
    rfl
  | cons r L ih =>
    intro st hf hp
    obtain ⟨t, ht⟩ := Option.isSome_iff_exists.mp (hp r (by simp))
    rw [List.map_cons, List.foldlM_cons,
      processOne_real s₀ now threshold st r t (hf r (by simp)) ht, bind_ok,
      ih _ (fun q hq => hf q (by simp [hq])) (fun q hq => hp q (by simp [hq]))]
    simp [List.append_assoc]

lemma foldlM_processOne_dry (s₀ : Store) (now : ℤ) (threshold : ℝ)
    (L : List MemoryRecord) :
    ∀ st : PassState,
    (∀ r ∈ L, findRow s₀ r.memory_id = some r) →
    (∀ r ∈ L, (parseTimestamp r.created_at).isSome) →
    (L.map (·.memory_id)).foldlM (processOne s₀ now threshold true) st =
      .ok ⟨st.store, st.log, L.foldl (dryAddCase now threshold) st.actions⟩ := by
  induction L with
  | nil =>
    intro st _ _
    rfl
  | cons r L ih =>
    intro st hf hp
    obtain ⟨t, ht⟩ := Option.isSome_iff_exists.mp (hp r (by simp))
    rw [List.map_cons, List.foldlM_cons,
      processOne_dry s₀ now threshold st r t (hf r (by simp)) ht, bind_ok,
      ih _ (fun q hq => hf q (by simp [hq])) (fun q hq => hp q (by simp [hq]))]
    rfl

lemma foldlM_processOne_isError (s₀ : Store) (now : ℤ) (threshold : ℝ) (dry_run : Bool)
    (L : List MemoryRecord) :
    ∀ st : PassState,
    (∀ r ∈ L, findRow s₀ r.memory_id = some r) →
    (∃ r ∈ L, parseTimestamp r.created_at = none) →
    (L.map (·.memory_id)).foldlM (processOne s₀ now threshold dry_run) st =
      .error "Invalid isoformat string" := by
  induction L with
  | nil =>
    intro st _ hbad
    simp at hbad
  | cons r L ih =>
    intro st hf hbad
    rw [List.map_cons, List.foldlM_cons]
    by_cases hr : parseTimestamp r.created_at = none
    · rw [processOne_error s₀ now threshold dry_run st r (hf r (by simp)) hr]
      rfl
    · obtain ⟨t, ht⟩ := Option.isSome_iff_exists.mp (Option.ne_none_iff_isSome.mp hr)
      obtain ⟨q, hq, hqbad⟩ := hbad
      have hqL : q ∈ L := by
        rcases List.mem_cons.mp hq with h | h
        · exact absurd (h ▸ hqbad) hr
        · exact h
      cases dry_run with
      | false =>
        rw [processOne_real s₀ now threshold st r t (hf r (by simp)) ht, bind_ok]
        exact ih _ (fun q' hq' => hf q' (by simp [hq'])) ⟨q, hqL, hqbad⟩
      | true =>
        rw [processOne_dry s₀ now threshold st r t (hf r (by simp)) ht, bind_ok]
        exact ih _ (fun q' hq' => hf q' (by simp [hq'])) ⟨q, hqL, hqbad⟩

/-! ### Store well-formedness and the active list -/

lemma mem_activeRecords (s : Store) (user_id : String) (r : MemoryRecord) :
    r ∈ activeRecords s user_id ↔ r ∈ s ∧ activeProp user_id r := by
  unfold activeRecords activeProp
  rw [(List.perm_insertionSort _ _).mem_iff, List.mem_filter]
  simp

lemma find?_memId_of_nodup (L : List MemoryRecord)
    (hnd : (L.map (·.memory_id)).Nodup) (r : MemoryRecord) (hr : r ∈ L) :
    L.find? (fun q => decide (q.memory_id = r.memory_id)) = some r := by
  induction L with
  | nil => simp at hr
  | cons x L ih =>
    rw [List.map_cons, List.nodup_cons] at hnd
    by_cases hx : x.memory_id = r.memory_id
    · rcases List.mem_cons.mp hr with h | h
      · subst h
        simp [List.find?_cons]
      · refine absurd ?_ hnd.1
        rw [hx]
        exact List.mem_map_of_mem (fun q => q.memory_id) h
    · rcases List.mem_cons.mp hr with h | h
      · exact absurd (congrArg (fun q => q.memory_id) h).symm hx
      · have hx' : (decide (x.memory_id = r.memory_id)) = false := by simp [hx]
        simp only [List.find?_cons, hx']
        exact ih hnd.2 h

lemma findRow_of_wf (s : Store) (hwf : StoreWF s) (r : MemoryRecord) (hr : r ∈ s) :
    findRow s r.memory_id = some r :=
  find?_memId_of_nodup s hwf r hr

lemma activeRecords_nodup_ids (s : Store) (user_id : String) (hwf : StoreWF s) :
    ((activeRecords s user_id).map (·.memory_id)).Nodup := by
  have hperm : (activeRecords s user_id).Perm
      (s.filter (fun r => decide (r.user_id = user_id ∧ r.forgetting_stage ≠ .forgotten))) :=
    List.perm_insertionSort _ _
  refine ((hperm.map (·.memory_id)).nodup_iff).mpr ?_
  have hsub : ((s.filter (fun r => decide (r.user_id = user_id ∧
      r.forgetting_stage ≠ .forgotten))).map (·.memory_id)).Sublist (s.map (·.memory_id)) :=
    (List.filter_sublist s).map (·.memory_id)
  exact hsub.nodup hwf

lemma activeRecords_findRow (s : Store) (user_id : String) (hwf : StoreWF s)
    (r : MemoryRecord) (hr : r ∈ activeRecords s user_id) :
    findRow s r.memory_id = some r :=
  findRow_of_wf s hwf r ((mem_activeRecords s user_id r).mp hr).1

lemma activeRecords_find?_of_active (s : Store) (user_id : String) (hwf : StoreWF s)
    (row : MemoryRecord) (hrow : row ∈ s) (hact : activeProp user_id row) :
    (activeRecords s user_id).find? (fun q => decide (q.memory_id = row.memory_id)) =
      some row :=
  find?_memId_of_nodup _ (activeRecords_nodup_ids s user_id hwf) row
    ((mem_activeRecords s user_id row).mpr ⟨hrow, hact⟩)

lemma activeRecords_find?_of_inactive (s : Store) (user_id : String) (hwf : StoreWF s)
    (row : MemoryRecord) (hrow : row ∈ s) (hact : ¬ activeProp user_id row) :
    (activeRecords s user_id).find? (fun q => decide (q.memory_id = row.memory_id)) =
      none := by
  rw [List.find?_eq_none]
  intro q hq
  obtain ⟨hqs, hqact⟩ := (mem_activeRecords s user_id q).mp hq
  simp only [decide_eq_true_eq]
  intro hid
  have e1 := findRow_of_wf s hwf q hqs
  have e2 := findRow_of_wf s hwf row hrow
  rw [hid] at e1
  rw [e1] at e2
  exact hact (Option.some.inj e2 ▸ hqact)

/-! ### Accumulated writes as a pointwise map -/

lemma foldl_updateStage_map (now : ℤ) (f : MemoryRecord → ForgettingStage)
    (g : MemoryRecord → Option String) (L : List MemoryRecord) :
    ∀ s' : Store, (L.map (·.memory_id)).Nodup →
    L.foldl (fun acc r => updateStage acc r.memory_id (f r) (g r) now) s' =
      s'.map (fun row =>
        match L.find? (fun q => decide (q.memory_id = row.memory_id)) with
        | some q => setRow row (f q) (g q) now
        | none => row) := by
  induction L with
  | nil =>
    intro s' _
    simp [List.find?_nil]
  | cons r L ih =>
    intro s' hnd
    rw [List.map_cons, List.nodup_cons] at hnd
    rw [List.foldl_cons, ih _ hnd.2]
    unfold updateStage
    rw [List.map_map]
    refine List.map_congr_left ?_
    intro row _
    simp only [Function.comp_apply]
    by_cases hid : row.memory_id = r.memory_id
    · rw [if_pos hid]
      have hfind : L.find? (fun q =>
          decide (q.memory_id = (setRow row (f r) (g r) now).memory_id)) = none := by
        rw [List.find?_eq_none]
        intro q hq
        simp only [setRow_memory_id, decide_eq_true_eq]
        intro hq'
        refine hnd.1 ?_
        rw [← hid, ← hq']
        exact List.mem_map_of_mem (fun q => q.memory_id) hq
      have hfind2 : (r :: L).find? (fun q => decide (q.memory_id = row.memory_id)) =
          some r := by
        have hd : (decide (r.memory_id = row.memory_id)) = true := by simp [hid.symm]
        simp only [List.find?_cons, hd]
      rw [hfind, hfind2]
    · rw [if_neg hid]
      have hne : (decide (r.memory_id = row.memory_id)) = false := by
        simp only [decide_eq_false_iff_not]
        exact fun h => hid h.symm
      simp only [List.find?_cons, hne]

lemma foldl_addCase_eq (s₀ : Store) (now : ℤ) (threshold : ℝ) (L : List MemoryRecord) :
    ∀ a : Actions, L.foldl (addCase s₀ now threshold) a =
      ⟨a.compressed ++ (L.filter (fun r => decide (compressedCase s₀ r))).map (·.memory_id),
       a.archived ++ (L.filter (fun r => decide (archivedCase now threshold r))).map (·.memory_id),
       a.forgotten ++ (L.filter (fun r => decide (forgottenCase now threshold r))).map (·.memory_id),
       a.retained ++ (L.filter (fun r => decide (retainedCase s₀ now threshold r))).map (·.memory_id)⟩ := by
  induction L with
  | nil =>
    intro a
    simp
  | cons r L ih =>
    intro a
    rw [List.foldl_cons, ih]
    by_cases h1 : compressedCase s₀ r
    · have hna : ¬ archivedCase now threshold r := by
        intro h
        rw [archivedCase, h1.1] at h
        exact absurd h.1 (by simp)
      have hnf : ¬ forgottenCase now threshold r := by
        intro h
        rw [forgottenCase, h1.1] at h
        exact absurd h.1 (by simp)
      have hnr : ¬ retainedCase s₀ now threshold r := fun h => h.1 h1
      simp [addCase, if_pos h1, List.filter_cons, h1, hna, hnf, hnr]
    · by_cases h2 : archivedCase now threshold r
      · have hnf : ¬ forgottenCase now threshold r := by
          intro h
          rw [forgottenCase, h2.1] at h
          exact absurd h.1 (by simp)
        have hnr : ¬ retainedCase s₀ now threshold r := fun h => h.2.1 h2
        simp [addCase, if_neg h1, if_pos h2, List.filter_cons, h1, h2, hnf, hnr]
      · by_cases h3 : forgottenCase now threshold r
        · have hnr : ¬ retainedCase s₀ now threshold r := fun h => h.2.2 h3
          simp [addCase, if_neg h1, if_neg h2, if_pos h3, List.filter_cons, h1, h2, h3, hnr]
        · have hr : retainedCase s₀ now threshold r := ⟨h1, h2, h3⟩
          simp [addCase, if_neg h1, if_neg h2, if_neg h3, List.filter_cons, h1, h2, h3, hr]

lemma foldl_dryAddCase_eq (now : ℤ) (threshold : ℝ) (L : List MemoryRecord) :
    ∀ a : Actions, L.foldl (dryAddCase now threshold) a =
      ⟨a.compressed, a.archived,
       a.forgotten ++ (L.filter (fun r => decide (sfProp now threshold r))).map (·.memory_id),
       a.retained ++ (L.filter (fun r => decide (¬ sfProp now threshold r))).map (·.memory_id)⟩ := by
  induction L with
  | nil =>
    intro a
    simp
  | cons r L ih =>
    intro a
    rw [List.foldl_cons, ih]
    by_cases h : sfProp now threshold r
    · simp [dryAddCase, if_pos h, List.filter_cons, h]
    · simp [dryAddCase, if_neg h, List.filter_cons, h]

/-! ### Full characterization of one pass -/

lemma except_map_ok {α β : Type} (x : α) (f : α → β) :
    (Except.ok x : Except String α).map f = .ok (f x) := rfl

lemma except_map_error {α β : Type} (e : String) (f : α → β) :
    (Except.error e : Except String α).map f = .error e := rfl

/-- What a non-dry pass does, in closed form: the actions dict buckets the
active rows by the decision cases, every active row is rewritten by
`setRow` with the decided stage and compressed content, and one log row is
appended per processed row. -/
lemma execute_forgetting_real_eq (s : Store) (user_id : String) (now : ℤ) (threshold : ℝ)
    (hwf : StoreWF s)
    (hp : ∀ r ∈ activeRecords s user_id, (parseTimestamp r.created_at).isSome) :
    execute_forgetting s user_id false now threshold =
      .ok (⟨((activeRecords s user_id).filter
               (fun r => decide (compressedCase s r))).map (·.memory_id),
            ((activeRecords s user_id).filter
               (fun r => decide (archivedCase now threshold r))).map (·.memory_id),
            ((activeRecords s user_id).filter
               (fun r => decide (forgottenCase now threshold r))).map (·.memory_id),
            ((activeRecords s user_id).filter
               (fun r => decide (retainedCase s now threshold r))).map (·.memory_id)⟩,
           s.map (fun row =>
             if activeProp user_id row then
               setRow row (nsOf s now threshold row) (ccOf s row) now
             else row),
           (activeRecords s user_id).map (logOf s now threshold)) := by
  unfold execute_forgetting activeMemoryIds
  rw [foldlM_processOne_real s now threshold (activeRecords s user_id) _
        (fun r hr => activeRecords_findRow s user_id hwf r hr) hp,
      except_map_ok]
  refine congrArg Except.ok ?_
  refine congrArg₂ Prod.mk ?_ (congrArg₂ Prod.mk ?_ ?_)
  · rw [foldl_addCase_eq]
    simp
  · rw [foldl_updateStage_map now _ _ _ _ (activeRecords_nodup_ids s user_id hwf)]
    refine List.map_congr_left ?_
    intro row hrow
    by_cases hact : activeProp user_id row
    · rw [activeRecords_find?_of_active s user_id hwf row hrow hact, if_pos hact]
    · rw [activeRecords_find?_of_inactive s user_id hwf row hrow hact, if_neg hact]
  · simp

/-- What a dry pass does, in closed form: the store and the log are left
untouched and the actions dict splits the active rows purely by the
forgetting decision. -/
lemma execute_forgetting_dry_eq (s : Store) (user_id : String) (now : ℤ) (threshold : ℝ)
    (hwf : StoreWF s)
    (hp : ∀ r ∈ activeRecords s user_id, (parseTimestamp r.created_at).isSome) :
    execute_forgetting s user_id true now threshold =
      .ok (⟨[], [],
            ((activeRecords s user_id).filter
               (fun r => decide (sfProp now threshold r))).map (·.memory_id),
            ((activeRecords s user_id).filter
               (fun r => decide (¬ sfProp now threshold r))).map (·.memory_id)⟩,
           s, []) := by
  unfold execute_forgetting activeMemoryIds
  rw [foldlM_processOne_dry s now threshold (activeRecords s user_id) _
        (fun r hr => activeRecords_findRow s user_id hwf r hr) hp,
      except_map_ok]
  refine congrArg Except.ok ?_
  refine congrArg₂ Prod.mk ?_ rfl
  rw [foldl_dryAddCase_eq]
  simp

/-- A malformed `created_at` among the active rows aborts the whole pass. -/
lemma execute_forgetting_isError (s : Store) (user_id : String) (dry_run : Bool)
    (now : ℤ) (threshold : ℝ) (hwf : StoreWF s)
    (hbad : ∃ r ∈ activeRecords s user_id, parseTimestamp r.created_at = none) :
    execute_forgetting s user_id dry_run now threshold =
      .error "Invalid isoformat string" := by
  unfold execute_forgetting activeMemoryIds
  rw [foldlM_processOne_isError s now threshold dry_run (activeRecords s user_id) _
        (fun r hr => activeRecords_findRow s user_id hwf r hr) hbad,
      except_map_error]

/-! ### Consequences used by the claims -/

lemma nsOf_rank_le (s₀ : Store) (now : ℤ) (threshold : ℝ) (r : MemoryRecord) :
    stageRank r.forgetting_stage ≤ stageRank (nsOf s₀ now threshold r) := by
  unfold nsOf
  by_cases h1 : compressedCase s₀ r
  · rw [if_pos h1, h1.1]
    simp [stageRank]
  · rw [if_neg h1]
    by_cases h2 : archivedCase now threshold r
    · rw [if_pos h2, h2.1]
      simp [stageRank]
    · rw [if_neg h2]
      by_cases h3 : forgottenCase now threshold r
      · rw [if_pos h3, h3.1]
        simp [stageRank]
      · rw [if_neg h3]

lemma nsOf_no_skip (s₀ : Store) (now : ℤ) (threshold : ℝ) (r : MemoryRecord)
    (hi : r.forgetting_stage = .intact) :
    nsOf s₀ now threshold r ≠ .forgotten := by
  unfold nsOf
  by_cases h1 : compressedCase s₀ r
  · rw [if_pos h1]
    simp
  · rw [if_neg h1]
    by_cases h2 : archivedCase now threshold r
    · exact absurd (hi ▸ h2.1) (by simp)
    · rw [if_neg h2]
      by_cases h3 : forgottenCase now threshold r
      · exact absurd (hi ▸ h3.1) (by simp)
      · rw [if_neg h3, hi]
        simp

lemma storeWF_map (s : Store) (f : MemoryRecord → MemoryRecord)
    (hf : ∀ r, (f r).memory_id = r.memory_id) (hwf : StoreWF s) :
    StoreWF (s.map f) := by
  unfold StoreWF at hwf ⊢
  rw [List.map_map]
  have : ((fun x => x.memory_id) ∘ f) = (fun x : MemoryRecord => x.memory_id) := by
    funext r
    exact hf r
  rw [this]
  exact hwf

lemma forgotten_not_active (s : Store) (user_id : String) (hwf : StoreWF s)
    (r : MemoryRecord) (hr : r ∈ s) (hforg : r.forgetting_stage = .forgotten) :
    r.memory_id ∉ activeMemoryIds s user_id := by
  unfold activeMemoryIds
  intro hmem
  obtain ⟨q, hq, hqid⟩ := List.mem_map.mp hmem
  obtain ⟨hqs, _, hqact⟩ := (mem_activeRecords s user_id q).mp hq
  have e1 := findRow_of_wf s hwf q hqs
  have e2 := findRow_of_wf s hwf r hr
  rw [hqid] at e1
  rw [e1] at e2
  exact hqact ((Option.some.inj e2) ▸ hforg)

lemma execute_ok_parse (s : Store) (user_id : String) (dry_run : Bool) (now : ℤ)
    (threshold : ℝ) (x : Actions × Store × List LogEntry) (hwf : StoreWF s)
    (hok : execute_forgetting s user_id dry_run now threshold = .ok x) :
    ∀ r ∈ activeRecords s user_id, (parseTimestamp r.created_at).isSome := by
  by_contra hbad
  push_neg at hbad
  obtain ⟨r, hr, hnone⟩ := hbad
  rw [execute_forgetting_isError s user_id dry_run now threshold hwf
    ⟨r, hr, Option.not_isSome_iff_eq_none.mp (by simpa using hnone)⟩] at hok
  exact Except.noConfusion hok

/-- Pointwise effect of one pass (dry or not) on every row of the store,
together with preservation of the PRIMARY KEY constraint. -/
lemma execute_ok_pointwise (s : Store) (user_id : String) (dry_run : Bool) (now : ℤ)
    (threshold : ℝ) (a : Actions) (s' : Store) (lg : List LogEntry) (hwf : StoreWF s)
    (hok : execute_forgetting s user_id dry_run now threshold = .ok (a, s', lg)) :
    StoreWF s' ∧
    ∀ r ∈ s, ∃ r' ∈ s', r'.memory_id = r.memory_id ∧ r'.user_id = r.user_id ∧
      r'.created_at = r.created_at ∧
      stageRank r.forgetting_stage ≤ stageRank r'.forgetting_stage ∧
      (r.forgetting_stage = .intact → r'.forgetting_stage ≠ .forgotten) ∧
      (r.forgetting_stage = .forgotten → r' = r) := by
  have hp := execute_ok_parse s user_id dry_run now threshold _ hwf hok
  cases dry_run with
  | true =>
    rw [execute_forgetting_dry_eq s user_id now threshold hwf hp] at hok
    obtain ⟨-, hs, -⟩ : a = _ ∧ s' = s ∧ lg = [] := by
      refine ⟨congrArg (fun y => y.1) (Except.ok.inj hok).symm, ?_, ?_⟩
      · exact congrArg (fun y => y.2.1) (Except.ok.inj hok).symm
      · exact congrArg (fun y => y.2.2) (Except.ok.inj hok).symm
    subst hs
    refine ⟨hwf, ?_⟩
    intro r hr
    refine ⟨r, hr, rfl, rfl, rfl, le_refl _, ?_, fun _ => rfl⟩
    intro hi hcon
    rw [hi] at hcon
    exact ForgettingStage.noConfusion hcon
  | false =>
    rw [execute_forgetting_real_eq s user_id now threshold hwf hp] at hok
    have hs : s' = s.map (fun row =>
        if activeProp user_id row then
          setRow row (nsOf s now threshold row) (ccOf s row) now
        else row) :=
      congrArg (fun y => y.2.1) (Except.ok.inj hok).symm
    subst hs
    constructor
    · refine storeWF_map s _ ?_ hwf
      intro r
      by_cases h : activeProp user_id r
      · rw [if_pos h]
        simp
      · rw [if_neg h]
    · intro r hr
      refine ⟨_, List.mem_map_of_mem _ hr, ?_⟩
      by_cases h : activeProp user_id r
      · rw [if_pos h]
        refine ⟨rfl, rfl, rfl, nsOf_rank_le s now threshold r, ?_, ?_⟩
        · intro hi
          simp only [setRow_forgetting_stage]
          exact nsOf_no_skip s now threshold r hi
        · intro hforg
          exact absurd hforg h.2
      · rw [if_neg h]
        exact ⟨rfl, rfl, rfl, le_refl _, fun hi => by
          intro hcon
          rw [hi] at hcon
          exact ForgettingStage.noConfusion hcon, fun _ => rfl⟩

lemma bind_error {α β : Type} (e : String) (f : α → Except String β) :
    ((Except.error e : Except String α) >>= f) = .error e := rfl

lemma storeWF_singleton (r : MemoryRecord) : StoreWF [r] := by
  unfold StoreWF
  simp

/-- Pointwise effect of any sequence of passes. -/
lemma runPasses_pointwise (ps : List PassParams) :
    ∀ s s' : Store, StoreWF s → runPasses ps s = .ok s' →
    ∀ r ∈ s, ∃ r' ∈ s', r'.memory_id = r.memory_id ∧
      stageRank r.forgetting_stage ≤ stageRank r'.forgetting_stage ∧
      (r.forgetting_stage = .forgotten → r' = r) := by
  induction ps with
  | nil =>
    intro s s' _ hok r hr
    have hss : s = s' := Except.ok.inj hok
    subst hss
    exact ⟨r, hr, rfl, le_refl _, fun _ => rfl⟩
  | cons p ps ih =>
    intro s s' hwf hok r hr
    unfold runPasses at hok
    rw [List.foldlM_cons] at hok
    cases hx : execute_forgetting s p.user_id p.dry_run p.now p.threshold with
    | error e =>
      rw [hx, except_map_error, bind_error] at hok
      exact Except.noConfusion hok
    | ok x =>
      obtain ⟨a, s1, lg⟩ := x
      rw [hx, except_map_ok, bind_ok] at hok
      obtain ⟨hwf1, hpt⟩ :=
        execute_ok_pointwise s p.user_id p.dry_run p.now p.threshold a s1 lg hwf hx
      obtain ⟨r1, hr1, hid1, -, -, hrank1, -, hforg1⟩ := hpt r hr
      obtain ⟨r', hr', hid', hrank', hforg'⟩ := ih s1 s' hwf1 hok r1 hr1
      refine ⟨r', hr', hid'.trans hid1, le_trans hrank1 hrank', ?_⟩
      intro hf
      have h1 : r1 = r := hforg1 hf
      exact (hforg' (by rw [h1]; exact hf)).trans h1

/-- Claim C1: forgetting stages only move forward.  Part one: in any single
pass that returns, every row maps to a row of the committed store with the
same id, a stage at least as far along the chain, never jumping from
`intact` to `forgotten`, and a `forgotten` row is returned unchanged and is
absent from the pass's active id list.  Part two: across any sequence of
passes, stages never regress and `forgotten` rows are never changed. -/
theorem claim_C1_forward_only (s : Store) (hwf : StoreWF s) :
    (∀ (u : String) (b : Bool) (now : ℤ) (th : ℝ) (a : Actions) (s' : Store)
       (lg : List LogEntry),
       execute_forgetting s u b now th = .ok (a, s', lg) →
       ∀ r ∈ s, ∃ r' ∈ s', r'.memory_id = r.memory_id ∧
         stageRank r.forgetting_stage ≤ stageRank r'.forgetting_stage ∧
         (r.forgetting_stage = .intact → r'.forgetting_stage ≠ .forgotten) ∧
         (r.forgetting_stage = .forgotten →
           r' = r ∧ r.memory_id ∉ activeMemoryIds s u)) ∧
    (∀ (ps : List PassParams) (s' : Store), runPasses ps s = .ok s' →
       ∀ r ∈ s, ∃ r' ∈ s', r'.memory_id = r.memory_id ∧
         stageRank r.forgetting_stage ≤ stageRank r'.forgetting_stage ∧
         (r.forgetting_stage = .forgotten → r' = r)) := by
  constructor
  · intro u b now th a s' lg hok r hr
    obtain ⟨-, hpt⟩ := execute_ok_pointwise s u b now th a s' lg hwf hok
    obtain ⟨r', hr', hid, -, -, hrank, hskip, hforg⟩ := hpt r hr
    exact ⟨r', hr', hid, hrank, hskip,
      fun hf => ⟨hforg hf, forgotten_not_active s u hwf r hr hf⟩⟩
  · intro ps s' hok
    exact runPasses_pointwise ps s s' hwf hok

/-- Witness for C1 at a concrete one-row store whose record is `forgotten`:
the single pass and the one-pass sequence both leave it untouched. -/
theorem claim_C1_forward_only_witness :
    (∃ r' ∈ ([recForgotten] : Store), r'.memory_id = recForgotten.memory_id ∧
      stageRank recForgotten.forgetting_stage ≤ stageRank r'.forgetting_stage ∧
      (recForgotten.forgetting_stage = .intact → r'.forgetting_stage ≠ .forgotten) ∧
      (recForgotten.forgetting_stage = .forgotten →
        r' = recForgotten ∧
        recForgotten.memory_id ∉ activeMemoryIds [recForgotten] "u")) ∧
    (∃ r' ∈ ([recForgotten] : Store), r'.memory_id = recForgotten.memory_id ∧
      stageRank recForgotten.forgetting_stage ≤ stageRank r'.forgetting_stage ∧
      (recForgotten.forgetting_stage = .forgotten → r' = recForgotten)) := by
  have h := claim_C1_forward_only [recForgotten] (storeWF_singleton recForgotten)
  constructor
  · exact h.1 "u" false 0 (0.2 : ℝ) ⟨[], [], [], []⟩ [recForgotten] [] rfl
      recForgotten (by simp)
  · exact h.2 [⟨"u", false, 0, (0.2 : ℝ)⟩] [recForgotten] rfl recForgotten (by simp)

lemma processOne_dry_preserves (s₀ : Store) (now : ℤ) (threshold : ℝ)
    (st : PassState) (memory_id : String) (st' : PassState)
    (h : processOne s₀ now threshold true st memory_id = .ok st') :
    st'.store = st.store ∧ st'.log = st.log := by
  unfold processOne at h
  cases hsf : should_forget s₀ now threshold memory_id with
  | error e =>
    rw [hsf] at h
    exact Except.noConfusion h
  | ok p =>
    obtain ⟨sf, reason⟩ := p
    rw [hsf] at h
    cases hfr : findRow s₀ memory_id with
    | none =>
      rw [hfr] at h
      exact Except.noConfusion h
    | some row =>
      rw [hfr] at h
      cases sf with
      | true =>
        simp only [if_true] at h
        rw [← Except.ok.inj h]
        exact ⟨rfl, rfl⟩
      | false =>
        simp only [if_true, Bool.false_eq_true, if_false] at h
        rw [← Except.ok.inj h]
        exact ⟨rfl, rfl⟩

lemma foldlM_dry_preserves (s₀ : Store) (now : ℤ) (threshold : ℝ) (ids : List String) :
    ∀ (st st' : PassState),
    ids.foldlM (processOne s₀ now threshold true) st = .ok st' →
    st'.store = st.store ∧ st'.log = st.log := by
  induction ids with
  | nil =>
    intro st st' h
    rw [← Except.ok.inj h]
    exact ⟨rfl, rfl⟩
  | cons i ids ih =>
    intro st st' h
    rw [List.foldlM_cons] at h
    cases hstep : processOne s₀ now threshold true st i with
    | error e =>
      rw [hstep, bind_error] at h
      exact Except.noConfusion h
    | ok st1 =>
      rw [hstep, bind_ok] at h
      obtain ⟨h1, h2⟩ := processOne_dry_preserves s₀ now threshold st i st1 hstep
      obtain ⟨h3, h4⟩ := ih st1 st' h
      exact ⟨h3.trans h1, h4.trans h2⟩

/-- Claim C5: a dry-run pass that returns leaves the table exactly as it
was and inserts no rows into the forgetting log (in the model the committed
store is returned unchanged and the list of new log rows is empty; no
branch of the dry path invokes the compressor or `UPDATE`).  This needs no
assumption on the store at all. -/
theorem claim_C5_dry_run_no_writes (s : Store) (user_id : String) (now : ℤ)
    (threshold : ℝ) (a : Actions) (s' : Store) (lg : List LogEntry)
    (hok : execute_forgetting s user_id true now threshold = .ok (a, s', lg)) :
    s' = s ∧ lg = [] := by
  unfold execute_forgetting at hok
  cases hfold : (activeMemoryIds s user_id).foldlM (processOne s now threshold true)
      ⟨s, [], ⟨[], [], [], []⟩⟩ with
  | error e =>
    rw [hfold, except_map_error] at hok
    exact Except.noConfusion hok
  | ok st =>
    rw [hfold, except_map_ok] at hok
    obtain ⟨h1, h2⟩ := foldlM_dry_preserves s now threshold _ _ st hfold
    have hs : s' = st.store := congrArg (fun y => y.2.1) (Except.ok.inj hok).symm
    have hl : lg = st.log := congrArg (fun y => y.2.2) (Except.ok.inj hok).symm
    exact ⟨hs.trans h1, hl.trans h2⟩

/-- Witness for C5: the dry pass on a one-row store returns with the store
unchanged and no log rows. -/
theorem claim_C5_dry_run_no_writes_witness :
    ([recForgotten] : Store) = [recForgotten] ∧ ([] : List LogEntry) = [] :=
  claim_C5_dry_run_no_writes [recForgotten] "u" 0 (0.2 : ℝ)
    ⟨[], [], [], []⟩ [recForgotten] [] rfl

/-! ### The score calculator (claims C2 and C7) -/

lemma calculate_eq (now : ℤ) (md : MemoryData) (t : ℤ)
    (hp : parseTimestamp md.created_at = some t) :
    calculate_memory_score now md =
      .ok ⟨md.memory_id, md.importance_score.getD 0.5,
           Real.exp (-(((now - t).fdiv SECONDS_PER_DAY : ℤ) : ℝ) / 30),
           md.emotional_score.getD 0, md.access_count.getD 0,
           md.compression_ratio.getD 1,
           ((md.importance_score.getD 0.5 : ℚ) : ℝ) * 0.4 +
             Real.exp (-(((now - t).fdiv SECONDS_PER_DAY : ℤ) : ℝ) / 30) * 0.3 +
             ((md.emotional_score.getD 0 : ℚ) : ℝ) * 0.2 +
             ((min ((md.access_count.getD 0 : ℚ) * 0.1) 0.5 : ℚ) : ℝ) * 0.1⟩ := by
  unfold calculate_memory_score
  simp only [hp]

lemma exp_two_bounds : (7.38904 : ℝ) < Real.exp 2 ∧ Real.exp 2 < 7.38911 := by
  have h2 : Real.exp 2 = Real.exp 1 * Real.exp 1 := by
    rw [← Real.exp_add]
    norm_num
  constructor
  · nlinarith [Real.exp_one_gt_d9]
  · nlinarith [Real.exp_one_lt_d9, Real.exp_pos 1]

/-- Claim C2: the composite score is
`base*0.4 + exp(-age_days/30)*0.3 + emotional*0.2 + min(access*0.1,0.5)*0.1`
with the whole-day (floored) age; on the spec's 60-day scenario record the
final score is 0.2405 up to 0.001 (it is ≈ 0.240600) and is not below the
fallback threshold 0.2. -/
theorem claim_C2_score_formula :
    (∀ (now : ℤ) (md : MemoryData) (t : ℤ), parseTimestamp md.created_at = some t →
      ∃ sc, calculate_memory_score now md = .ok sc ∧
        sc.final_score = ((md.importance_score.getD 0.5 : ℚ) : ℝ) * 0.4 +
          Real.exp (-(((now - t).fdiv SECONDS_PER_DAY : ℤ) : ℝ) / 30) * 0.3 +
          ((md.emotional_score.getD 0 : ℚ) : ℝ) * 0.2 +
          ((min ((md.access_count.getD 0 : ℚ) * 0.1) 0.5 : ℚ) : ℝ) * 0.1) ∧
    (∃ sc, calculate_memory_score 0 mdSixtyDays = .ok sc ∧
      |sc.final_score - 0.2405| < 0.001 ∧
      ¬ (sc.final_score < default_forgetting_threshold)) := by
  constructor
  · intro now md t hp
    exact ⟨_, calculate_eq now md t hp, rfl⟩
  · have hp : parseTimestamp mdSixtyDays.created_at = some (-5184000) := by decide
    refine ⟨_, calculate_eq 0 mdSixtyDays (-5184000) hp, ?_, ?_⟩
    all_goals
      have hage : ((0 : ℤ) - (-5184000)).fdiv SECONDS_PER_DAY = 60 := by decide
      simp only [hage, mdSixtyDays, Option.getD_some]
      have hminq : min (((0 : ℕ) : ℚ) * 0.1) 0.5 = (0 : ℚ) := by
        push_cast
        rw [zero_mul]
        exact min_eq_left (by norm_num)
      rw [hminq]
      have harg : (-(((60 : ℤ) : ℝ)) / 30) = -2 := by
        push_cast
        norm_num
      rw [harg, Real.exp_neg]
      have hinv : Real.exp 2 * (Real.exp 2)⁻¹ = 1 :=
        mul_inv_cancel₀ (ne_of_gt (Real.exp_pos 2))
      have hivpos : 0 < (Real.exp 2)⁻¹ := inv_pos.mpr (Real.exp_pos 2)
      have hlo := exp_two_bounds.1
      have hhi := exp_two_bounds.2
    · rw [abs_lt]
      constructor
      · push_cast
        nlinarith [hinv, hivpos, hhi]
      · push_cast
        nlinarith [hinv, hivpos, hlo]
    · unfold default_forgetting_threshold
      push_cast
      nlinarith [hivpos]

/-- Claim C7 (amended): a future `created_at` does not make the calculator
raise, but `age_days` is NOT clamped at zero: the recency term equals
`exp(-age_days/30)` even for negative ages, so it lies in (0, 1] exactly
when `age_days ≥ 0` and strictly exceeds 1 whenever `created_at` lies in
the future of `now`. -/
theorem claim_C7_negative_age_amended (now : ℤ) (md : MemoryData) (t : ℤ)
    (hp : parseTimestamp md.created_at = some t) :
    ∃ sc, calculate_memory_score now md = .ok sc ∧
      sc.recency_boost =
        Real.exp (-(((now - t).fdiv SECONDS_PER_DAY : ℤ) : ℝ) / 30) ∧
      0 < sc.recency_boost ∧
      (0 ≤ (now - t).fdiv SECONDS_PER_DAY → sc.recency_boost ≤ 1) ∧
      ((now - t).fdiv SECONDS_PER_DAY < 0 → 1 < sc.recency_boost) := by
  refine ⟨_, calculate_eq now md t hp, rfl, Real.exp_pos _, ?_, ?_⟩
  · intro hage
    have h : (-(((now - t).fdiv SECONDS_PER_DAY : ℤ) : ℝ) / 30) ≤ 0 := by
      have : (0 : ℝ) ≤ (((now - t).fdiv SECONDS_PER_DAY : ℤ) : ℝ) := by
        exact_mod_cast hage
      linarith
    calc Real.exp (-(((now - t).fdiv SECONDS_PER_DAY : ℤ) : ℝ) / 30)
        ≤ Real.exp 0 := Real.exp_le_exp.mpr h
      _ = 1 := Real.exp_zero
  · intro hage
    have h : (0 : ℝ) < (-(((now - t).fdiv SECONDS_PER_DAY : ℤ) : ℝ) / 30) := by
      have : (((now - t).fdiv SECONDS_PER_DAY : ℤ) : ℝ) < 0 := by
        exact_mod_cast hage
      linarith
    calc (1 : ℝ) = Real.exp 0 := Real.exp_zero.symm
      _ < Real.exp (-(((now - t).fdiv SECONDS_PER_DAY : ℤ) : ℝ) / 30) :=
        Real.exp_lt_exp.mpr h

/-- Witness for the amended C7, on the 60-day-old scenario record: the
calculator returns, with a positive recency term at most 1. -/
theorem claim_C7_negative_age_amended_witness :
    ∃ sc, calculate_memory_score 0 mdSixtyDays = .ok sc ∧
      0 < sc.recency_boost ∧ sc.recency_boost ≤ 1 := by
  obtain ⟨sc, hok, -, hpos, hle, -⟩ :=
    claim_C7_negative_age_amended 0 mdSixtyDays (-5184000) (by decide)
  exact ⟨sc, hok, hpos, hle (by decide)⟩

/-- Counterexample for C7 as stated: for a record created 30 days in the
future of `now` the calculator does not clamp the age; it succeeds with a
recency term `exp(1) > 1`, outside the claimed interval (0, 1]. -/
theorem claim_C7_negative_age_counterexample :
    ∃ sc, calculate_memory_score 0 mdFuture = .ok sc ∧ 1 < sc.recency_boost := by
  refine ⟨_, calculate_eq 0 mdFuture 2592000 (by decide), ?_⟩
  show (1 : ℝ) < Real.exp (-((((0 : ℤ) - 2592000).fdiv SECONDS_PER_DAY : ℤ) : ℝ) / 30)
  have hage : ((0 : ℤ) - 2592000).fdiv SECONDS_PER_DAY = -30 := by decide
  rw [hage]
  have harg : (-(((-30 : ℤ) : ℝ)) / 30) = 1 := by
    push_cast
    norm_num
  rw [harg]
  calc (1 : ℝ) = Real.exp 0 := Real.exp_zero.symm
    _ < Real.exp 1 := Real.exp_lt_exp.mpr (by norm_num)

/-! ### Evaluation helpers for the concrete fixtures -/

lemma activeRecords_singleton (r : MemoryRecord) (u : String) (hu : r.user_id = u)
    (hs : r.forgetting_stage ≠ .forgotten) : activeRecords [r] u = [r] := by
  unfold activeRecords
  have hd : decide (r.user_id = u ∧ r.forgetting_stage ≠ .forgotten) = true := by
    simp [hu, hs]
  rw [List.filter_cons, hd]
  rfl

lemma scoreOfRow_final_half (now : ℤ) (r : MemoryRecord)
    (hage : ageDaysOf now r = 0) (hacc : r.access_count = 0) :
    (scoreOfRow now r).final_score = 0.5 := by
  unfold scoreOfRow
  simp only [hage, hacc]
  have hminq : min (((0 : ℕ) : ℚ) * 0.1) 0.5 = (0 : ℚ) := by
    push_cast
    rw [zero_mul]
    exact min_eq_left (by norm_num)
  rw [hminq]
  have harg : (-(((0 : ℤ) : ℝ)) / 30) = 0 := by
    push_cast
    norm_num
  rw [harg, Real.exp_zero]
  push_cast
  norm_num

lemma sfProp_iff_half (now : ℤ) (threshold : ℝ) (r : MemoryRecord)
    (hage : ageDaysOf now r = 0) (hacc : r.access_count = 0) :
    sfProp now threshold r ↔ (0.5 : ℝ) < threshold := by
  unfold sfProp
  rw [scoreOfRow_final_half now r hage hacc]

/-- Claim C4 (counterexample): on a one-row store whose memory is in stage
`compressed` and scores 0.5, with the forgetting threshold configured to
0.6, the dry run classifies the memory as forgotten while the real run
puts it in the `archived` bucket and not in the `forgotten` one. -/
theorem claim_C4_dry_real_counterexample :
    (execute_forgetting [recCompressed] "u" true 0 (0.6 : ℝ)).map
        (fun x => x.1.forgotten) = .ok ["m1"] ∧
    (execute_forgetting [recCompressed] "u" false 0 (0.6 : ℝ)).map
        (fun x => x.1.forgotten) = .ok [] := by
  have hA : activeRecords [recCompressed] "u" = [recCompressed] :=
    activeRecords_singleton recCompressed "u" rfl (by simp [recCompressed])
  have hp : ∀ r ∈ activeRecords [recCompressed] "u",
      (parseTimestamp r.created_at).isSome := by
    rw [hA]
    intro r hr
    rw [List.mem_singleton.mp hr]
    decide
  have hsf : sfProp 0 (0.6 : ℝ) recCompressed := by
    rw [sfProp_iff_half 0 (0.6 : ℝ) recCompressed (by decide) rfl]
    norm_num
  have hnf : ¬ forgottenCase 0 (0.6 : ℝ) recCompressed := by
    intro h
    have : ForgettingStage.compressed = ForgettingStage.archived := h.1
    exact ForgettingStage.noConfusion this
  constructor
  · rw [execute_forgetting_dry_eq [recCompressed] "u" 0 (0.6 : ℝ)
      (storeWF_singleton recCompressed) hp, except_map_ok, hA]
    refine congrArg Except.ok ?_
    show (List.filter (fun r => decide (sfProp 0 (0.6 : ℝ) r)) [recCompressed]).map
        (fun x => x.memory_id) = ["m1"]
    rw [List.filter_cons, decide_eq_true hsf]
    rfl
  · rw [execute_forgetting_real_eq [recCompressed] "u" 0 (0.6 : ℝ)
      (storeWF_singleton recCompressed) hp, except_map_ok, hA]
    refine congrArg Except.ok ?_
    show (List.filter (fun r => decide (forgottenCase 0 (0.6 : ℝ) r)) [recCompressed]).map
        (fun x => x.memory_id) = []
    rw [List.filter_cons, decide_eq_false hnf]
    rfl

/-- Claim C4 (amended): the dry run buckets as forgotten exactly the active
memories whose score is below the threshold, while the real run's forgotten
bucket keeps only those of them already in stage `archived`; the two agree
whenever every below-threshold active memory is archived (with the fallback
threshold 0.2 this holds vacuously, since a stored row always scores
`0.2 + exp(-age/30)*0.3 + frequency*0.1 > 0.2`), but not in general. -/
theorem claim_C4_dry_real_amended (s : Store) (user_id : String) (now : ℤ)
    (threshold : ℝ) (hwf : StoreWF s)
    (hp : ∀ r ∈ activeRecords s user_id, (parseTimestamp r.created_at).isSome)
    (harch : ∀ r ∈ activeRecords s user_id,
      sfProp now threshold r → r.forgetting_stage = .archived) :
    ∃ adry sdry lgdry areal sreal lgreal,
      execute_forgetting s user_id true now threshold = .ok (adry, sdry, lgdry) ∧
      execute_forgetting s user_id false now threshold = .ok (areal, sreal, lgreal) ∧
      adry.forgotten = ((activeRecords s user_id).filter
        (fun r => decide (sfProp now threshold r))).map (·.memory_id) ∧
      areal.forgotten = ((activeRecords s user_id).filter
        (fun r => decide (forgottenCase now threshold r))).map (·.memory_id) ∧
      adry.forgotten = areal.forgotten := by
  refine ⟨_, _, _, _, _, _,
    execute_forgetting_dry_eq s user_id now threshold hwf hp,
    execute_forgetting_real_eq s user_id now threshold hwf hp, rfl, rfl, ?_⟩
  show ((activeRecords s user_id).filter
      (fun r => decide (sfProp now threshold r))).map (·.memory_id) =
    ((activeRecords s user_id).filter
      (fun r => decide (forgottenCase now threshold r))).map (·.memory_id)
  have hf : (activeRecords s user_id).filter (fun r => decide (sfProp now threshold r)) =
      (activeRecords s user_id).filter
        (fun r => decide (forgottenCase now threshold r)) := by
    refine List.filter_congr ?_
    intro r hr
    by_cases h : sfProp now threshold r
    · have harch' : r.forgetting_stage = .archived := harch r hr h
      simp [h, forgottenCase, harch']
    · have hnc : ¬ forgottenCase now threshold r := fun hc => h hc.2
      simp [h, hnc]
  rw [hf]

/-- Witness for the amended C4 on a one-row store whose memory is archived
and below the 0.6 threshold: both runs produce the same forgotten bucket. -/
theorem claim_C4_dry_real_amended_witness :
    ∃ adry sdry lgdry areal sreal lgreal,
      execute_forgetting [recArchived] "u" true 0 (0.6 : ℝ) = .ok (adry, sdry, lgdry) ∧
      execute_forgetting [recArchived] "u" false 0 (0.6 : ℝ) = .ok (areal, sreal, lgreal) ∧
      adry.forgotten = areal.forgotten := by
  have hA : activeRecords [recArchived] "u" = [recArchived] :=
    activeRecords_singleton recArchived "u" rfl (by simp [recArchived])
  have hp : ∀ r ∈ activeRecords [recArchived] "u",
      (parseTimestamp r.created_at).isSome := by
    rw [hA]
    intro r hr
    rw [List.mem_singleton.mp hr]
    decide
  have harch : ∀ r ∈ activeRecords [recArchived] "u",
      sfProp 0 (0.6 : ℝ) r → r.forgetting_stage = .archived := by
    rw [hA]
    intro r hr _
    rw [List.mem_singleton.mp hr]
    rfl
  obtain ⟨adry, sdry, lgdry, areal, sreal, lgreal, h1, h2, -, -, h5⟩ :=
    claim_C4_dry_real_amended [recArchived] "u" 0 (0.6 : ℝ)
      (storeWF_singleton recArchived) hp harch
  exact ⟨adry, sdry, lgdry, areal, sreal, lgreal, h1, h2, h5⟩

lemma findRow_singleton (r : MemoryRecord) : findRow [r] r.memory_id = some r := by
  unfold findRow
  simp [List.find?_cons]

/-- Claim C6 (counterexample): on a one-row store whose intact memory has
`compression_ratio = 0.5` (not compression-ready) and scores 0.5 (not below
the 0.2 threshold), a non-dry pass changes no stage yet inserts one row
into the forgetting log — contradicting "no log entry is produced for a
memory whose stage does not change". -/
theorem claim_C6_log_counterexample :
    ∃ a s' lg, execute_forgetting [recIntactLowRatio] "u" false 0 (0.2 : ℝ) =
        .ok (a, s', lg) ∧ lg.length = 1 ∧
      ∀ r' ∈ s', r'.forgetting_stage = recIntactLowRatio.forgetting_stage := by
  have hA : activeRecords [recIntactLowRatio] "u" = [recIntactLowRatio] :=
    activeRecords_singleton recIntactLowRatio "u" rfl (by simp [recIntactLowRatio])
  have hp : ∀ r ∈ activeRecords [recIntactLowRatio] "u",
      (parseTimestamp r.created_at).isSome := by
    rw [hA]
    intro r hr
    rw [List.mem_singleton.mp hr]
    decide
  have hsc : should_compress [recIntactLowRatio] recIntactLowRatio.memory_id = false := by
    simp only [should_compress, findRow_singleton]
    rw [if_pos (by norm_num [recIntactLowRatio] :
      recIntactLowRatio.compression_ratio ≠ 0)]
    exact decide_eq_false (by norm_num [recIntactLowRatio])
  have hncc : ¬ compressedCase [recIntactLowRatio] recIntactLowRatio := by
    intro h
    have h2 := h.2
    rw [hsc] at h2
    exact Bool.noConfusion h2
  have hnarch : ¬ archivedCase 0 (0.2 : ℝ) recIntactLowRatio := by
    intro h
    exact ForgettingStage.noConfusion h.1
  have hnforg : ¬ forgottenCase 0 (0.2 : ℝ) recIntactLowRatio := by
    intro h
    exact ForgettingStage.noConfusion h.1
  have hns : nsOf [recIntactLowRatio] 0 (0.2 : ℝ) recIntactLowRatio = .intact := by
    unfold nsOf
    rw [if_neg hncc, if_neg hnarch, if_neg hnforg]
    rfl
  refine ⟨_, _, _, execute_forgetting_real_eq [recIntactLowRatio] "u" 0 (0.2 : ℝ)
    (storeWF_singleton recIntactLowRatio) hp, ?_, ?_⟩
  · rw [hA]
    rfl
  · intro r' hr'
    have hact : activeProp "u" recIntactLowRatio := ⟨rfl, by simp [recIntactLowRatio]⟩
    simp only [List.map_cons, List.map_nil, if_pos hact] at hr'
    rw [List.mem_singleton.mp hr']
    rw [setRow_forgetting_stage, hns]
    rfl

/-- Claim C6 (amended): a non-dry pass inserts exactly one log row per
PROCESSED memory, whether or not its stage changes (a retained memory logs
an entry with `old_stage = new_stage`), and the logged reason is the one
returned by `should_forget` — which can disagree with the rule that fired
(e.g. an intact memory with ratio in (0.7, 0.8] is compressed but logged
"Memory retained", and a compressed→archived transition is logged with the
low-score reason, never "Ready for archival"). -/
theorem claim_C6_log_per_processed_amended (s : Store) (user_id : String) (now : ℤ)
    (threshold : ℝ) (a : Actions) (s' : Store) (lg : List LogEntry) (hwf : StoreWF s)
    (hok : execute_forgetting s user_id false now threshold = .ok (a, s', lg)) :
    lg = (activeRecords s user_id).map (logOf s now threshold) ∧
    lg.length = (activeRecords s user_id).length ∧
    ∀ e ∈ lg, ∃ r ∈ activeRecords s user_id,
      e = ⟨r.memory_id, r.forgetting_stage, nsOf s now threshold r,
           reasonOf now threshold r⟩ := by
  have hp := execute_ok_parse s user_id false now threshold _ hwf hok
  rw [execute_forgetting_real_eq s user_id now threshold hwf hp] at hok
  have hlg : lg = (activeRecords s user_id).map (logOf s now threshold) :=
    congrArg (fun y => y.2.2) (Except.ok.inj hok).symm
  subst hlg
  refine ⟨rfl, by simp, ?_⟩
  intro e he
  obtain ⟨r, hr, hre⟩ := List.mem_map.mp he
  exact ⟨r, hr, hre.symm⟩

/-- Witness for the amended C6: on the concrete retained-memory store the
returned log is exactly one `logOf` row per active memory. -/
theorem claim_C6_log_per_processed_amended_witness :
    ∃ a s' lg, execute_forgetting [recIntactLowRatio] "u" false 0 (0.2 : ℝ) =
        .ok (a, s', lg) ∧
      lg = (activeRecords [recIntactLowRatio] "u").map
        (logOf [recIntactLowRatio] 0 (0.2 : ℝ)) := by
  have hp : ∀ r ∈ activeRecords [recIntactLowRatio] "u",
      (parseTimestamp r.created_at).isSome := by
    rw [activeRecords_singleton recIntactLowRatio "u" rfl (by simp [recIntactLowRatio])]
    intro r hr
    rw [List.mem_singleton.mp hr]
    decide
  have hok := execute_forgetting_real_eq [recIntactLowRatio] "u" 0 (0.2 : ℝ)
    (storeWF_singleton recIntactLowRatio) hp
  exact ⟨_, _, _, hok, (claim_C6_log_per_processed_amended [recIntactLowRatio] "u" 0
    (0.2 : ℝ) _ _ _ (storeWF_singleton recIntactLowRatio) hok).1⟩

lemma should_compress_iff (s : Store) (r : MemoryRecord)
    (hf : findRow s r.memory_id = some r) :
    should_compress s r.memory_id = true ↔
      (r.compression_ratio > 0.7 ∨ r.compression_ratio = 0) := by
  simp only [should_compress, hf]
  by_cases h0 : r.compression_ratio = 0
  · rw [if_neg (not_not_intro h0)]
    simp [h0]
  · rw [if_pos h0]
    simp [h0]

/-- Claim C3 (amended): in a non-dry pass, an active intact memory
transitions to `compressed` if and only if `should_compress` holds for it,
which is `compression_ratio > 0.7` OR `compression_ratio = 0` (Python's
truthiness test `if row and row[0]` sends a zero ratio to the
`return True` fallback).  The equivalence holds for every threshold — the
test does not consult the score, which is the claimed independence from the
importance-threshold test. -/
theorem claim_C3_compression_iff_amended (s : Store) (user_id : String) (now : ℤ)
    (threshold : ℝ) (a : Actions) (s' : Store) (lg : List LogEntry) (hwf : StoreWF s)
    (hok : execute_forgetting s user_id false now threshold = .ok (a, s', lg))
    (r : MemoryRecord) (hr : r ∈ s) (hact : activeProp user_id r)
    (hint : r.forgetting_stage = .intact) :
    ∃ r' ∈ s', r'.memory_id = r.memory_id ∧
      (r'.forgetting_stage = .compressed ↔ should_compress s r.memory_id = true) ∧
      (should_compress s r.memory_id = true ↔
        (r.compression_ratio > 0.7 ∨ r.compression_ratio = 0)) := by
  have hp := execute_ok_parse s user_id false now threshold _ hwf hok
  rw [execute_forgetting_real_eq s user_id now threshold hwf hp] at hok
  have hs : s' = s.map (fun row =>
      if activeProp user_id row then
        setRow row (nsOf s now threshold row) (ccOf s row) now
      else row) :=
    congrArg (fun y => y.2.1) (Except.ok.inj hok).symm
  subst hs
  refine ⟨_, List.mem_map_of_mem _ hr, ?_⟩
  rw [if_pos hact]
  refine ⟨setRow_memory_id r _ _ now, ?_,
    should_compress_iff s r (findRow_of_wf s hwf r hr)⟩
  rw [setRow_forgetting_stage]
  constructor
  · intro hcomp
    by_contra hsc
    have hncc : ¬ compressedCase s r := fun h => hsc h.2
    have hnarch : ¬ archivedCase now threshold r := fun h =>
      ForgettingStage.noConfusion (hint ▸ h.1)
    have hnforg : ¬ forgottenCase now threshold r := fun h =>
      ForgettingStage.noConfusion (hint ▸ h.1)
    unfold nsOf at hcomp
    rw [if_neg hncc, if_neg hnarch, if_neg hnforg, hint] at hcomp
    exact ForgettingStage.noConfusion hcomp
  · intro hsc
    have hcc : compressedCase s r := ⟨hint, hsc⟩
    unfold nsOf
    rw [if_pos hcc]

/-- Witness for the amended C3: a compression-ready intact record
(ratio 1 > 0.7) ends the pass in stage `compressed`, and the iff holds. -/
theorem claim_C3_compression_iff_amended_witness :
    ∃ a s' lg, execute_forgetting [recIntactReady] "u" false 0 (0.2 : ℝ) =
        .ok (a, s', lg) ∧
      ∃ r' ∈ s', r'.memory_id = recIntactReady.memory_id ∧
        (r'.forgetting_stage = .compressed ↔
          (recIntactReady.compression_ratio > 0.7 ∨
            recIntactReady.compression_ratio = 0)) := by
  have hp : ∀ r ∈ activeRecords [recIntactReady] "u",
      (parseTimestamp r.created_at).isSome := by
    rw [activeRecords_singleton recIntactReady "u" rfl (by simp [recIntactReady])]
    intro r hr
    rw [List.mem_singleton.mp hr]
    decide
  have hok := execute_forgetting_real_eq [recIntactReady] "u" 0 (0.2 : ℝ)
    (storeWF_singleton recIntactReady) hp
  obtain ⟨r', hr', hid, hiff1, hiff2⟩ :=
    claim_C3_compression_iff_amended [recIntactReady] "u" 0 (0.2 : ℝ) _ _ _
      (storeWF_singleton recIntactReady) hok recIntactReady (by simp)
      ⟨rfl, by simp [recIntactReady]⟩ rfl
  exact ⟨_, _, _, hok, r', hr', hid, hiff1.trans hiff2⟩

/-- Claim C3 (counterexample): an intact memory with
`compression_ratio = 0` is NOT strictly above 0.7, yet the non-dry pass
puts it in the `compressed` bucket, because the Python guard treats the
zero ratio as missing and returns `True`. -/
theorem claim_C3_ratio_zero_counterexample :
    (execute_forgetting [recRatioZero] "u" false 0 (0.2 : ℝ)).map
        (fun x => x.1.compressed) = .ok ["m1"] ∧
    ¬ ((0.7 : ℚ) < recRatioZero.compression_ratio) := by
  have hA : activeRecords [recRatioZero] "u" = [recRatioZero] :=
    activeRecords_singleton recRatioZero "u" rfl (by simp [recRatioZero])
  have hp : ∀ r ∈ activeRecords [recRatioZero] "u",
      (parseTimestamp r.created_at).isSome := by
    rw [hA]
    intro r hr
    rw [List.mem_singleton.mp hr]
    decide
  have hcc : compressedCase [recRatioZero] recRatioZero := by
    refine ⟨rfl, ?_⟩
    simp only [should_compress, findRow_singleton]
    have h0 : recRatioZero.compression_ratio = 0 := rfl
    simp [h0]
  constructor
  · rw [execute_forgetting_real_eq [recRatioZero] "u" 0 (0.2 : ℝ)
      (storeWF_singleton recRatioZero) hp, except_map_ok, hA]
    refine congrArg Except.ok ?_
    show (List.filter (fun r => decide (compressedCase [recRatioZero] r))
        [recRatioZero]).map (fun x => x.memory_id) = ["m1"]
    rw [List.filter_cons, decide_eq_true hcc]
    rfl
  · norm_num [recRatioZero]

/-- Claim C10: every active memory that a non-dry pass evaluates is written
back with `compressed_content` equal to what this very pass produced —
`some (compress_memory ...)` only in the intact-and-compression-ready case
and `NULL` in every other case — so a previously stored compressed content
is discarded by any later pass that evaluates the memory. -/
theorem claim_C10_compressed_content_reset (s : Store) (user_id : String) (now : ℤ)
    (threshold : ℝ) (a : Actions) (s' : Store) (lg : List LogEntry) (hwf : StoreWF s)
    (hok : execute_forgetting s user_id false now threshold = .ok (a, s', lg)) :
    ∀ r ∈ s, activeProp user_id r →
      ∃ r' ∈ s', r'.memory_id = r.memory_id ∧
        r'.compressed_content = ccOf s r ∧
        (¬ compressedCase s r → r'.compressed_content = none) := by
  have hp := execute_ok_parse s user_id false now threshold _ hwf hok
  rw [execute_forgetting_real_eq s user_id now threshold hwf hp] at hok
  have hs : s' = s.map (fun row =>
      if activeProp user_id row then
        setRow row (nsOf s now threshold row) (ccOf s row) now
      else row) :=
    congrArg (fun y => y.2.1) (Except.ok.inj hok).symm
  subst hs
  intro r hr hact
  refine ⟨_, List.mem_map_of_mem _ hr, ?_⟩
  rw [if_pos hact]
  refine ⟨setRow_memory_id r _ _ now, setRow_compressed_content r _ _ now, ?_⟩
  intro hncc
  rw [setRow_compressed_content]
  unfold ccOf
  exact if_neg (fun h => hncc h)

/-- Witness for C10: a pass over a store whose single memory is in stage
`compressed` and still carries stored compressed content writes the row
back with `compressed_content = NULL`, discarding the stored content. -/
theorem claim_C10_compressed_content_reset_witness :
    ∃ a s' lg, execute_forgetting [recCompressed] "u" false 0 (0.2 : ℝ) =
        .ok (a, s', lg) ∧
      ∃ r' ∈ s', r'.memory_id = recCompressed.memory_id ∧
        r'.compressed_content = none ∧
        recCompressed.compressed_content = some "old summary" := by
  have hp : ∀ r ∈ activeRecords [recCompressed] "u",
      (parseTimestamp r.created_at).isSome := by
    rw [activeRecords_singleton recCompressed "u" rfl (by simp [recCompressed])]
    intro r hr
    rw [List.mem_singleton.mp hr]
    decide
  have hok := execute_forgetting_real_eq [recCompressed] "u" 0 (0.2 : ℝ)
    (storeWF_singleton recCompressed) hp
  obtain ⟨r', hr', hid, -, hnone⟩ :=
    claim_C10_compressed_content_reset [recCompressed] "u" 0 (0.2 : ℝ) _ _ _
      (storeWF_singleton recCompressed) hok recCompressed (by simp)
      ⟨rfl, by simp [recCompressed]⟩
  refine ⟨_, _, _, hok, r', hr', hid, hnone ?_, rfl⟩
  intro h
  exact ForgettingStage.noConfusion h.1

/-- Claim C8 (amended): a per-memory error is NOT contained: one malformed
`created_at` among the active memories makes `execute_forgetting` propagate
the parse error (the loop has no try/except), aborting the pass with no
summary returned. -/
theorem claim_C8_error_aborts_amended (s : Store) (user_id : String) (dry_run : Bool)
    (now : ℤ) (threshold : ℝ) (hwf : StoreWF s)
    (hbad : ∃ r ∈ activeRecords s user_id, parseTimestamp r.created_at = none) :
    execute_forgetting s user_id dry_run now threshold =
      .error "Invalid isoformat string" :=
  execute_forgetting_isError s user_id dry_run now threshold hwf hbad

/-- Witness for the amended C8: the dry pass on a store with one malformed
record propagates the error. -/
theorem claim_C8_error_aborts_amended_witness :
    execute_forgetting [recBadTimestamp] "u" true 0 (0.2 : ℝ) =
      .error "Invalid isoformat string" := by
  refine claim_C8_error_aborts_amended [recBadTimestamp] "u" true 0 (0.2 : ℝ)
    (storeWF_singleton recBadTimestamp) ⟨recBadTimestamp, ?_, rfl⟩
  rw [activeRecords_singleton recBadTimestamp "u" rfl (by simp [recBadTimestamp])]
  simp

/-- Claim C8 (counterexample): on a one-row store whose memory has an
unparsable `created_at` the non-dry pass returns an error rather than a
summary of the memories that succeeded — the claim's contained-failure
behaviour does not hold. -/
theorem claim_C8_error_counterexample :
    execute_forgetting [recBadTimestamp] "u" false 0 (0.2 : ℝ) =
      .error "Invalid isoformat string" := by
  refine execute_forgetting_isError [recBadTimestamp] "u" false 0 (0.2 : ℝ)
    (storeWF_singleton recBadTimestamp) ⟨recBadTimestamp, ?_, rfl⟩
  rw [activeRecords_singleton recBadTimestamp "u" rfl (by simp [recBadTimestamp])]
  simp

/-! ### The compressor (claim C9) -/

lemma pyMaxByLen_foldl_spec (t : List String) :
    ∀ acc : String,
    ∃ l1 l2, acc :: t =
        l1 ++ (t.foldl (fun a s => if s.length > a.length then s else a) acc) :: l2 ∧
      (∀ y ∈ l1,
        y.length < (t.foldl (fun a s => if s.length > a.length then s else a) acc).length) ∧
      (∀ y ∈ acc :: t,
        y.length ≤ (t.foldl (fun a s => if s.length > a.length then s else a) acc).length) := by
  induction t with
  | nil =>
    intro acc
    exact ⟨[], [], rfl, by simp, by simp⟩
  | cons s t ih =>
    intro acc
    rw [List.foldl_cons]
    by_cases h : s.length > acc.length
    · rw [if_pos h]
      obtain ⟨l1, l2, heq, hlt, hle⟩ := ih s
      refine ⟨acc :: l1, l2, ?_, ?_, ?_⟩
      · rw [List.cons_append, ← heq]
      · intro y hy
        rcases List.mem_cons.mp hy with hya | hy'
        · have hsr := hle s (by simp)
          rw [hya]
          omega
        · exact hlt y hy'
      · intro y hy
        rcases List.mem_cons.mp hy with hya | hy'
        · have hsr := hle s (by simp)
          rw [hya]
          omega
        · exact hle y hy'
    · rw [if_neg h]
      obtain ⟨l1, l2, heq, hlt, hle⟩ := ih acc
      cases l1 with
      | nil =>
        simp only [List.nil_append] at heq
        have hacc : acc = t.foldl (fun a s => if s.length > a.length then s else a) acc :=
          (List.cons.inj heq).1
        have ht : t = l2 := (List.cons.inj heq).2
        refine ⟨[], s :: l2, ?_, by simp, ?_⟩
        · rw [List.nil_append, ← hacc, ← ht]
        · intro y hy
          rcases List.mem_cons.mp hy with hya | hy'
          · rw [hya]
            exact hle acc (by simp)
          · rcases List.mem_cons.mp hy' with hys | hyt
            · have := hle acc (by simp)
              rw [hys]
              omega
            · exact hle y (by simp [hyt])
      | cons x l1' =>
        simp only [List.cons_append] at heq
        have hacc : acc = x := (List.cons.inj heq).1
        have ht : t = l1' ++
            (t.foldl (fun a s => if s.length > a.length then s else a) acc) :: l2 :=
          (List.cons.inj heq).2
        refine ⟨acc :: s :: l1', l2, ?_, ?_, ?_⟩
        · rw [List.cons_append, List.cons_append, ← ht]
        · intro y hy
          rcases List.mem_cons.mp hy with hya | hy'
          · have hx := hlt x (by simp)
            rw [← hacc] at hx
            rw [hya]
            exact hx
          · rcases List.mem_cons.mp hy' with hys | hyl
            · have hxlt := hlt x (by simp)
              rw [← hacc] at hxlt
              rw [hys]
              omega
            · exact hlt y (by simp [hyl])
        · intro y hy
          rcases List.mem_cons.mp hy with hya | hy'
          · rw [hya]
            exact hle acc (by simp)
          · rcases List.mem_cons.mp hy' with hys | hyt
            · have := hle acc (by simp)
              rw [hys]
              omega
            · exact hle y (by simp [hyt])

lemma pyMaxByLen_spec (interior : List String) (hne : interior ≠ []) :
    ∃ l1 l2, interior = l1 ++ pyMaxByLen interior :: l2 ∧
      (∀ y ∈ l1, y.length < (pyMaxByLen interior).length) ∧
      (∀ y ∈ interior, y.length ≤ (pyMaxByLen interior).length) := by
  cases interior with
  | nil => exact absurd rfl hne
  | cons x xs => exact pyMaxByLen_foldl_spec xs x

/-- Claim C9 (amended): the compressor splits on `". "`; with 3 or fewer
sentences the content is returned unchanged; with more it keeps the first
sentence, the longest interior sentence (ties to the first occurrence) and
the last sentence joined with `". "` under the `"[COMPRESSED] "` marker —
EXCEPT that an empty longest interior sentence is dropped (Python's
`if longest:`), leaving only first and last.  The spec's two scenarios
hold. -/
theorem claim_C9_compressor_amended :
    (∀ memory_id content : String, (pySplitDot content).length ≤ 3 →
      compress_memory memory_id content = content) ∧
    (∀ memory_id content : String, 3 < (pySplitDot content).length →
      pyMaxByLen ((pySplitDot content).drop 1).dropLast ≠ "" →
      compress_memory memory_id content =
        "[COMPRESSED] " ++ String.intercalate ". "
          [(pySplitDot content).headI,
           pyMaxByLen ((pySplitDot content).drop 1).dropLast,
           (pySplitDot content).getLastD ""]) ∧
    (∀ content : String, 3 < (pySplitDot content).length →
      ∃ l1 l2, ((pySplitDot content).drop 1).dropLast =
          l1 ++ pyMaxByLen ((pySplitDot content).drop 1).dropLast :: l2 ∧
        (∀ y ∈ l1,
          y.length < (pyMaxByLen ((pySplitDot content).drop 1).dropLast).length) ∧
        (∀ y ∈ ((pySplitDot content).drop 1).dropLast,
          y.length ≤ (pyMaxByLen ((pySplitDot content).drop 1).dropLast).length)) ∧
    compress_memory "m" "S1. S2 long. S3. S4. S5" = "[COMPRESSED] S1. S2 long. S5" ∧
    compress_memory "m" "A. B" = "A. B" := by
  refine ⟨?_, ?_, ?_, by decide, by decide⟩
  · intro memory_id content h
    unfold compress_memory
    rw [if_pos h]
  · intro memory_id content h hne
    unfold compress_memory
    rw [if_neg (by omega), if_pos (by omega)]
    simp only [if_neg hne]
  · intro content h
    refine pyMaxByLen_spec _ ?_
    have hlen : (((pySplitDot content).drop 1).dropLast).length =
        (pySplitDot content).length - 2 := by
      rw [List.length_dropLast, List.length_drop]
      omega
    intro hnil
    rw [hnil] at hlen
    simp at hlen
    omega

/-- Witness for the amended C9 at its two scenario inputs. -/
theorem claim_C9_compressor_amended_witness :
    compress_memory "m" "A. B" = "A. B" ∧
    compress_memory "m" "S1. S2 long. S3. S4. S5" =
      "[COMPRESSED] " ++ String.intercalate ". "
        [(pySplitDot "S1. S2 long. S3. S4. S5").headI,
         pyMaxByLen ((pySplitDot "S1. S2 long. S3. S4. S5").drop 1).dropLast,
         (pySplitDot "S1. S2 long. S3. S4. S5").getLastD ""] :=
  ⟨claim_C9_compressor_amended.1 "m" "A. B" (by decide),
   claim_C9_compressor_amended.2.1 "m" "S1. S2 long. S3. S4. S5" (by decide) (by decide)⟩

/-- Claim C9 (counterexample): a 4-sentence content whose interior
sentences are all empty.  The code returns only the first and last
sentences under the marker, NOT the claimed "first sentence, longest
interior sentence, last sentence, joined in that order" (which here would
be "[COMPRESSED] a. . b"). -/
theorem claim_C9_empty_interior_counterexample :
    compress_memory "m" "a. . . b" = "[COMPRESSED] a. b" ∧
    compress_memory "m" "a. . . b" ≠
      "[COMPRESSED] " ++ String.intercalate ". "
        [(pySplitDot "a. . . b").headI,
         pyMaxByLen ((pySplitDot "a. . . b").drop 1).dropLast,
         (pySplitDot "a. . . b").getLastD ""] := by
  constructor
  · decide
  · decide

/-- Witness for C2: the formula part instantiated on the concrete 60-day
scenario record. -/
theorem claim_C2_score_formula_witness :
    ∃ sc, calculate_memory_score 0 mdSixtyDays = .ok sc ∧
      sc.final_score = ((mdSixtyDays.importance_score.getD 0.5 : ℚ) : ℝ) * 0.4 +
        Real.exp (-((((0 : ℤ) - (-5184000)).fdiv SECONDS_PER_DAY : ℤ) : ℝ) / 30) * 0.3 +
        ((mdSixtyDays.emotional_score.getD 0 : ℚ) : ℝ) * 0.2 +
        ((min ((mdSixtyDays.access_count.getD 0 : ℚ) * 0.1) 0.5 : ℚ) : ℝ) * 0.1 :=
  claim_C2_score_formula.1 0 mdSixtyDays (-5184000) (by decide)

end LongMemory
